import Mathlib

/-!
Verification of the offline notes synchronization backend.

The definitions below are a shallow embedding of the reconciliation engine in
`backend/src/routes/sync.ts` (the `POST /sync` and `POST /sync/resolve`
handlers), the CRUD mutations in `backend/src/routes/notes.ts`, and the client
orchestrator's queue-acknowledgement step in `frontend/src/hooks/useSync.ts`.
The authoritative Note Store (a Postgres table keyed by the `id` primary key,
see the drizzle schema) is modelled as a `List Note`; timestamps are modelled
as integers (millisecond values of JS `Date`, which the code compares with
`<` / `>`), and each handler's `new Date()` wall-clock reads are supplied as
an explicit `now` parameter.
-/

namespace NotesApp

/-- A stored note row, mirroring the `notes` table of the drizzle schema
(`id` uuid primary key, `user_id`, `title`, `content`, `updated_at`,
`created_at`, `deleted`, `version`). -/
structure Note where
  id : String
  userId : String
  title : String
  content : String
  updatedAt : Int
  createdAt : Int
  deleted : Bool
  version : Int
  deriving DecidableEq

/-- One incoming client change, mirroring the `syncSchema` element shape
(`id`, `title`, `content`, `updatedAt`, `deleted`, `version`). -/
structure Change where
  id : String
  title : String
  content : String
  updatedAt : Int
  deleted : Bool
  version : Int
  deriving DecidableEq

/-- A conflict record returned by `POST /sync`: the change id, the current
server note, and the proposed client change (`ConflictData` in the types). -/
structure ConflictData where
  id : String
  server : Note
  client : Change
  deriving DecidableEq

/-- Outcome of processing one change inside the `POST /sync` loop: the new
store, the id pushed onto `applied` (if any), and the conflict pushed onto
`conflicts` (if any). -/
structure StepOut where
  store : List Note
  applied : Option String
  conflict : Option ConflictData
  deriving DecidableEq

/-- Accumulated outcome of the whole `POST /sync` change loop. -/
structure BatchOut where
  store : List Note
  applied : List String
  conflicts : List ConflictData
  deriving DecidableEq

/-- The `db.select().from(notes).where(and(eq(notes.id, nid), eq(notes.userId, uid))).limit(1)`
lookup used by both sync handlers: first stored row with the given id owned by
the given user. -/
def findNote (store : List Note) (uid nid : String) : Option Note :=
  store.find? fun n => n.id == nid && n.userId == uid

/-- `db.insert(notes).values(...)`: appends a row; fails (primary-key
violation on `id`) when a row with the same id already exists. -/
def dbInsert (store : List Note) (n : Note) : Option (List Note) :=
  if store.any fun m => m.id == n.id then none else some (store ++ [n])

/-- `db.update(notes).set(...).where(eq(notes.id, nid))`: rewrites every row
whose id matches (the `where` clauses of the update statements in `sync.ts`
filter by id only). -/
def dbUpdateById (store : List Note) (nid : String) (f : Note → Note) : List Note :=
  store.map fun n => if n.id == nid then f n else n

/-- The row inserted by the create branch of `POST /sync`: the client's
fields verbatim, with both `updatedAt` and `createdAt` set to the change's
`updatedAt`. -/
def noteOfChange (uid : String) (c : Change) : Note :=
  { id := c.id, userId := uid, title := c.title, content := c.content,
    updatedAt := c.updatedAt, createdAt := c.updatedAt,
    deleted := c.deleted, version := c.version }

/-- The branch of the `POST /sync` loop taken when the note already exists
(`sync.ts` lines 76-148): compare timestamps; on equal timestamps compare
versions; the higher side wins, equality on both is an applied no-op. -/
def processExisting (now : Int) (store : List Note) (c : Change) (sn : Note) : StepOut :=
  if sn.updatedAt < c.updatedAt then
    ⟨dbUpdateById store c.id fun n =>
        { n with title := c.title, content := c.content, deleted := c.deleted,
                 version := max sn.version c.version + 1, updatedAt := c.updatedAt },
      some c.id, none⟩
  else if c.updatedAt < sn.updatedAt then
    ⟨store, none, some ⟨c.id, sn, c⟩⟩
  else if sn.version < c.version then
    ⟨dbUpdateById store c.id fun n =>
        { n with title := c.title, content := c.content, deleted := c.deleted,
                 version := c.version + 1, updatedAt := now },
      some c.id, none⟩
  else if c.version < sn.version then
    ⟨store, none, some ⟨c.id, sn, c⟩⟩
  else
    ⟨store, some c.id, none⟩

/-- One iteration of the `POST /sync` change loop (`sync.ts` lines 54-155):
create when absent; otherwise compare timestamps, then versions on a tie.
A failing insert is swallowed by the per-change `catch`. -/
def processChange (now : Int) (uid : String) (store : List Note) (c : Change) : StepOut :=
  match findNote store uid c.id with
  | none =>
      match dbInsert store (noteOfChange uid c) with
      | some s => ⟨s, some c.id, none⟩
      | none => ⟨store, none, none⟩
  | some sn => processExisting now store c sn

/-- The full `POST /sync` change loop: changes are processed in order, and
`applied` / `conflicts` collect the per-change outcomes in order. -/
def syncBatch (now : Int) (uid : String) : List Note → List Change → BatchOut
  | store, [] => ⟨store, [], []⟩
  | store, c :: cs =>
      let r := processChange now uid store c
      let rest := syncBatch now uid r.store cs
      ⟨rest.store, r.applied.toList ++ rest.applied, r.conflict.toList ++ rest.conflicts⟩

/-- The change loop with an injected storage fault per change: a change
flagged `true` raises a storage error during its processing, which the
per-change `catch` swallows, leaving the store untouched and contributing
nothing to `applied` or `conflicts`. -/
def syncBatchFaulty (now : Int) (uid : String) : List Note → List (Change × Bool) → BatchOut
  | store, [] => ⟨store, [], []⟩
  | store, cb :: cbs =>
      if cb.2 then syncBatchFaulty now uid store cbs
      else
        let r := processChange now uid store cb.1
        let rest := syncBatchFaulty now uid r.store cbs
        ⟨rest.store, r.applied.toList ++ rest.applied, r.conflict.toList ++ rest.conflicts⟩

/-- Ordering used by the `serverChanges` query (`orderBy(notes.updatedAt)`,
ascending). -/
def noteLE (a b : Note) : Prop := a.updatedAt ≤ b.updatedAt

instance : DecidableRel noteLE := fun a b =>
  inferInstanceAs (Decidable (a.updatedAt ≤ b.updatedAt))

instance : IsTotal Note noteLE := ⟨fun a b => Int.le_total a.updatedAt b.updatedAt⟩

instance : IsTrans Note noteLE := ⟨fun _ _ _ h h' => le_trans h h'⟩

/-- The `serverChanges` computation of `POST /sync` (lines 157-179): empty
when no `lastSyncAt` was sent; otherwise the caller's notes with `updatedAt`
strictly greater than `lastSyncAt`, ordered by `updatedAt` ascending. -/
def serverChangesOf (store : List Note) (uid : String) : Option Int → List Note
  | none => []
  | some t =>
      List.insertionSort noteLE (store.filter fun n => n.userId == uid && t < n.updatedAt)

/-- The `POST /sync` response shape (`applied`, `conflicts`, `serverChanges`,
`serverTime`). -/
structure SyncResponseOut where
  applied : List String
  conflicts : List ConflictData
  serverChanges : List Note
  serverTime : Int
  deriving DecidableEq

/-- The whole `POST /sync` handler body after validation: process the batch,
then compute `serverChanges` from the post-batch store. Returns the response
together with the final store. -/
def postSync (now : Int) (uid : String) (store : List Note) (lastSyncAt : Option Int)
    (changes : List Change) : SyncResponseOut × List Note :=
  let b := syncBatch now uid store changes
  (⟨b.applied, b.conflicts, serverChangesOf b.store uid lastSyncAt, now⟩, b.store)

/-- The three resolution choices of `POST /sync/resolve`. -/
inductive Resolution where
  | server
  | client
  | manual
  deriving DecidableEq

/-- The `POST /sync/resolve` handler: look up the note by (id, owner); 404
when absent; for `server` bump the version and touch `updatedAt`; for
`manual` with manual data also overwrite title/content; otherwise (including
`client`) perform no update. The returned row is re-selected by id alone. -/
def resolveConflict (now : Int) (uid : String) (store : List Note) (noteId : String)
    (res : Resolution) (manualData : Option (String × String)) :
    Option (List Note × Note) :=
  match findNote store uid noteId with
  | none => none
  | some note =>
      let store' :=
        match res, manualData with
        | .server, _ =>
            dbUpdateById store noteId fun n =>
              { n with version := note.version + 1, updatedAt := now }
        | .manual, some md =>
            dbUpdateById store noteId fun n =>
              { n with title := md.1, content := md.2,
                       version := note.version + 1, updatedAt := now }
        | _, _ => store
      match store'.find? fun n => n.id == noteId with
      | some updated => some (store', updated)
      | none => none

/-- The `PUT /notes/:id` handler body (`notes.ts` lines 122-176): look up a
non-deleted note owned by the caller; 404 when absent; otherwise apply the
provided fields, set `version` to the stored version plus one, and stamp
`updatedAt`. Returns the new store and the updated row. -/
def putNote (now : Int) (uid : String) (store : List Note) (nid : String)
    (title? content? : Option String) : Option (List Note × Note) :=
  match store.find? (fun n => n.id == nid && n.userId == uid && !n.deleted) with
  | none => none
  | some existing =>
      let f : Note → Note := fun n =>
        { n with title := title?.getD n.title, content := content?.getD n.content,
                 version := existing.version + 1, updatedAt := now }
      some (dbUpdateById store nid f, f existing)

/-- The `DELETE /notes/:id` handler body (`notes.ts` lines 182-217): look up
a non-deleted note owned by the caller; 404 when absent; otherwise set the
tombstone, bump `version` by one, and stamp `updatedAt`. -/
def deleteNote (now : Int) (uid : String) (store : List Note) (nid : String) :
    Option (List Note) :=
  match store.find? (fun n => n.id == nid && n.userId == uid && !n.deleted) with
  | none => none
  | some existing =>
      some (dbUpdateById store nid fun n =>
        { n with deleted := true, version := existing.version + 1, updatedAt := now })

/-- The frontend's local note shape (`frontend` types: `id`, `title`,
`content`, `updatedAt`, `createdAt`, `version`, `deleted`, timestamps kept as
ISO strings). -/
structure FNote where
  id : String
  title : String
  content : String
  updatedAt : String
  createdAt : String
  version : Int
  deleted : Bool
  deriving DecidableEq

/-- A pending queue operation kind (`SyncQueueItem.operation`). -/
inductive QueueOp where
  | create
  | update
  | delete
  deriving DecidableEq

/-- A pending local change (`SyncQueueItem`: `noteId`, `operation`, the note
snapshot `data`, enqueue `timestamp`). -/
structure SyncQueueItem where
  noteId : String
  operation : QueueOp
  data : FNote
  timestamp : String
  deriving DecidableEq

/-- Modelled from the spec: the body of `clearSyncQueue` lives in the
frontend `config/db` module, which is not among the provided sources. Its
call site in `useSync.ts` passes no arguments — in particular no list of
acknowledged ids — so the operation is modelled as removing every pending
queue item. -/
def clearSyncQueue (_q : List SyncQueueItem) : List SyncQueueItem := []

/-- The queue-acknowledgement step of one successful sync round
(`useSync.ts` lines 101-105): when the server's `applied` list is non-empty,
`clearSyncQueue()` is invoked; otherwise the queue is left untouched. -/
def acknowledgeStep (applied : List String) (q : List SyncQueueItem) :
    List SyncQueueItem :=
  if 0 < applied.length then clearSyncQueue q else q

/-- Projection of a note onto the reconciled content fields (everything the
engine's update branches write except `version`). -/
def contentOf (n : Note) : String × String × Bool × Int :=
  (n.title, n.content, n.deleted, n.updatedAt)

/-- A sample stored note used in concrete scenarios: owned by `u`, last
updated at time 10, at version 3. -/
def sampleNote : Note :=
  { id := "n1", userId := "u", title := "old", content := "oc",
    updatedAt := 10, createdAt := 5, deleted := false, version := 3 }

/-- A change for `sampleNote` with a strictly newer timestamp (20) and
version 5. -/
def newerChange : Change :=
  { id := "n1", title := "t2", content := "c2", updatedAt := 20,
    deleted := false, version := 5 }

/-- A change for `sampleNote` with a strictly older timestamp (4). -/
def olderChange : Change :=
  { id := "n1", title := "t0", content := "c0", updatedAt := 4,
    deleted := false, version := 5 }

/-- A change for `sampleNote` with the same timestamp (10) and a higher
version (4). -/
def tieHigherChange : Change :=
  { id := "n1", title := "t3", content := "c3", updatedAt := 10,
    deleted := false, version := 4 }

/-- A change for `sampleNote` with the same timestamp (10) and a lower
version (2). -/
def tieLowerChange : Change :=
  { id := "n1", title := "t4", content := "c4", updatedAt := 10,
    deleted := false, version := 2 }

/-- A change for `sampleNote` with the same timestamp (10) and the same
version (3). -/
def tieEqualChange : Change :=
  { id := "n1", title := "t5", content := "c5", updatedAt := 10,
    deleted := false, version := 3 }

/-- Candidate write A for the order-independence scenario: timestamp 11. -/
def writeA : Change :=
  { id := "n1", title := "a", content := "ac", updatedAt := 11,
    deleted := false, version := 1 }

/-- Candidate write B for the order-independence scenario: timestamp 12. -/
def writeB : Change :=
  { id := "n1", title := "b", content := "bc", updatedAt := 12,
    deleted := false, version := 1 }

/-- The row `sampleNote` becomes after the client-newer apply of
`newerChange`: the change's fields, version `max 3 5 + 1 = 6`. -/
def noteAfterNewer : Note :=
  { id := "n1", userId := "u", title := "t2", content := "c2",
    updatedAt := 20, createdAt := 5, deleted := false, version := 6 }

/-- A change whose id collides with another owner's note, for the isolation
scenario. -/
def collidingChange : Change :=
  { id := "n9", title := "h", content := "hc", updatedAt := 60,
    deleted := false, version := 1 }

/-- A change whose processing is made to fail in the fault-injection
scenario. -/
def failingChange : Change :=
  { id := "nf", title := "f", content := "fc", updatedAt := 30,
    deleted := false, version := 1 }

/-- A note owned by a different user `v`, for the isolation scenarios. -/
def otherUserNote : Note :=
  { id := "n9", userId := "v", title := "x", content := "y",
    updatedAt := 50, createdAt := 1, deleted := false, version := 7 }

/-- A pending queue item for note `n1`. -/
def queueItem1 : SyncQueueItem :=
  { noteId := "n1", operation := QueueOp.update,
    data := { id := "n1", title := "a", content := "ac", updatedAt := "T1",
              createdAt := "T0", version := 1, deleted := false },
    timestamp := "T1" }

/-- A pending queue item for note `n2` (not acknowledged by the server in
the scenario below). -/
def queueItem2 : SyncQueueItem :=
  { noteId := "n2", operation := QueueOp.update,
    data := { id := "n2", title := "b", content := "bc", updatedAt := "T2",
              createdAt := "T0", version := 1, deleted := false },
    timestamp := "T2" }

/-! ### Basic lemmas about the store primitives -/

/-- `find?` commutes with mapping a function that preserves the predicate. -/
theorem find?_map_pres {α : Type} (g : α → α) (p : α → Bool)
    (h : ∀ a, p (g a) = p a) :
    ∀ l : List α, (l.map g).find? p = (l.find? p).map g := by
  intro l
  induction l with
  | nil => rfl
  | cons a t ih =>
      simp only [List.map_cons, List.find?, h a]
      cases hp : p a
      · simpa only [hp] using ih
      · simp [hp]

/-- Looking a note up after an id-scoped update: the update rewrites exactly
the rows whose id matches, and it cannot change which row is found because
the update functions never touch `id` or `userId`. -/
theorem findNote_dbUpdateById (store : List Note) (uid nid nid' : String)
    (f : Note → Note) (hid : ∀ n, (f n).id = n.id)
    (huid : ∀ n, (f n).userId = n.userId) :
    findNote (dbUpdateById store nid f) uid nid' =
      (findNote store uid nid').map fun n => if n.id == nid then f n else n := by
  unfold findNote dbUpdateById
  refine find?_map_pres _ _ ?_ store
  intro a
  by_cases h : a.id = nid
  · have hb : (a.id == nid) = true := by simpa [beq_iff_eq] using h
    simp [hb, hid, huid]
  · have hb : (a.id == nid) = false := by simpa [beq_iff_eq] using h
    simp [hb]

/-- Looking a note up after appending a fresh row. -/
theorem findNote_append_of_none (store : List Note) (m : Note) (uid nid : String)
    (h : findNote store uid nid = none) :
    findNote (store ++ [m]) uid nid =
      if m.id == nid && m.userId == uid then some m else none := by
  unfold findNote at *
  rw [List.find?_append, h]
  cases hm : (m.id == nid && m.userId == uid) <;>
    simp [List.find?, hm, Option.or]

/-- Reduction of `processChange` when the note exists for the owner. -/
theorem processChange_found (now : Int) (uid : String) (store : List Note)
    (c : Change) (n : Note) (h : findNote store uid c.id = some n) :
    processChange now uid store c = processExisting now store c n := by
  unfold processChange
  rw [h]

/-- Reduction of `processChange` when the note is absent and its id is free:
the insert succeeds. -/
theorem processChange_insert (now : Int) (uid : String) (store : List Note)
    (c : Change) (h : findNote store uid c.id = none)
    (hfree : (store.any fun m => m.id == c.id) = false) :
    processChange now uid store c =
      ⟨store ++ [noteOfChange uid c], some c.id, none⟩ := by
  unfold processChange dbInsert
  rw [h]
  simp [noteOfChange, hfree]

/-- Reduction of `processChange` when the note is absent for the owner but
its id is already taken (another owner's row): the insert hits the primary
key, the error is swallowed, and nothing happens. -/
theorem processChange_insert_fails (now : Int) (uid : String) (store : List Note)
    (c : Change) (h : findNote store uid c.id = none)
    (htaken : (store.any fun m => m.id == c.id) = true) :
    processChange now uid store c = ⟨store, none, none⟩ := by
  unfold processChange dbInsert
  rw [h]
  simp [noteOfChange, htaken]

/-- Looking up the same (id, owner) after an id-scoped update whose function
touches neither `id` nor `userId`: the found row is the image of the
previously found row. -/
theorem findNote_after_update_self (store : List Note) (uid nid : String)
    (n : Note) (f : Note → Note) (hid : ∀ m, (f m).id = m.id)
    (huid : ∀ m, (f m).userId = m.userId)
    (hfind : findNote store uid nid = some n) :
    findNote (dbUpdateById store nid f) uid nid = some (f n) := by
  rw [findNote_dbUpdateById store uid nid nid f hid huid, hfind]
  have hp := List.find?_some hfind
  have hnid : n.id = nid := by
    simp only [Bool.and_eq_true, beq_iff_eq] at hp
    exact hp.1
  simp [hnid]

/-- Reduction of `processChange` in the client-newer branch. -/
theorem processChange_clientNewer (now : Int) (uid : String) (store : List Note)
    (c : Change) (n : Note) (hfind : findNote store uid c.id = some n)
    (hlt : n.updatedAt < c.updatedAt) :
    processChange now uid store c =
      ⟨dbUpdateById store c.id fun m =>
          { m with title := c.title, content := c.content, deleted := c.deleted,
                   version := max n.version c.version + 1, updatedAt := c.updatedAt },
        some c.id, none⟩ := by
  rw [processChange_found now uid store c n hfind]
  unfold processExisting
  rw [if_pos hlt]

/-- Reduction of `processChange` in the server-newer branch. -/
theorem processChange_serverNewer (now : Int) (uid : String) (store : List Note)
    (c : Change) (n : Note) (hfind : findNote store uid c.id = some n)
    (hgt : c.updatedAt < n.updatedAt) :
    processChange now uid store c = ⟨store, none, some ⟨c.id, n, c⟩⟩ := by
  rw [processChange_found now uid store c n hfind]
  unfold processExisting
  rw [if_neg (lt_asymm hgt), if_pos hgt]

/-- Reduction of `processChange` in the equal-timestamp, higher-client-version
branch. -/
theorem processChange_tie_apply (now : Int) (uid : String) (store : List Note)
    (c : Change) (n : Note) (hfind : findNote store uid c.id = some n)
    (heq : n.updatedAt = c.updatedAt) (hv : n.version < c.version) :
    processChange now uid store c =
      ⟨dbUpdateById store c.id fun m =>
          { m with title := c.title, content := c.content, deleted := c.deleted,
                   version := c.version + 1, updatedAt := now },
        some c.id, none⟩ := by
  rw [processChange_found now uid store c n hfind]
  unfold processExisting
  rw [if_neg (by rw [heq]; exact lt_irrefl _), if_neg (by rw [heq]; exact lt_irrefl _),
    if_pos hv]

/-- Reduction of `processChange` in the equal-timestamp, higher-server-version
branch. -/
theorem processChange_tie_conflict (now : Int) (uid : String) (store : List Note)
    (c : Change) (n : Note) (hfind : findNote store uid c.id = some n)
    (heq : n.updatedAt = c.updatedAt) (hv : c.version < n.version) :
    processChange now uid store c = ⟨store, none, some ⟨c.id, n, c⟩⟩ := by
  rw [processChange_found now uid store c n hfind]
  unfold processExisting
  rw [if_neg (by rw [heq]; exact lt_irrefl _), if_neg (by rw [heq]; exact lt_irrefl _),
    if_neg (lt_asymm hv), if_pos hv]

/-- Reduction of `processChange` in the equal-timestamp, equal-version
branch: an applied no-op. -/
theorem processChange_tie_noop (now : Int) (uid : String) (store : List Note)
    (c : Change) (n : Note) (hfind : findNote store uid c.id = some n)
    (heq : n.updatedAt = c.updatedAt) (hv : n.version = c.version) :
    processChange now uid store c = ⟨store, some c.id, none⟩ := by
  rw [processChange_found now uid store c n hfind]
  unfold processExisting
  rw [if_neg (by rw [heq]; exact lt_irrefl _), if_neg (by rw [heq]; exact lt_irrefl _),
    if_neg (by rw [hv]; exact lt_irrefl _), if_neg (by rw [hv]; exact lt_irrefl _)]

/-! ### The per-change reconciliation contract (claims C5, C6, C7) -/

/-- C5: for a change whose note exists for the owner with a strictly newer
client timestamp, the engine stores the client's `title`, `content` and
`deleted`, sets `version` to `max serverVersion clientVersion + 1`, sets
`updatedAt` to the client's timestamp, marks the id applied, and emits no
conflict. -/
theorem clientNewer_apply (now : Int) (uid : String) (store : List Note)
    (c : Change) (n : Note) (hfind : findNote store uid c.id = some n)
    (hlt : n.updatedAt < c.updatedAt) :
    processChange now uid store c =
      ⟨dbUpdateById store c.id fun m =>
          { m with title := c.title, content := c.content, deleted := c.deleted,
                   version := max n.version c.version + 1, updatedAt := c.updatedAt },
        some c.id, none⟩ ∧
    findNote (processChange now uid store c).store uid c.id =
      some { n with title := c.title, content := c.content, deleted := c.deleted,
                    version := max n.version c.version + 1,
                    updatedAt := c.updatedAt } := by
  have h1 := processChange_clientNewer now uid store c n hfind hlt
  refine ⟨h1, ?_⟩
  rw [h1]
  dsimp only
  exact findNote_after_update_self store uid c.id n _ (fun _ => rfl) (fun _ => rfl) hfind

/-- Witness for C5: `sampleNote` (updated at 10, version 3) against
`newerChange` (updated at 20, version 5) yields version `max 3 5 + 1 = 6`. -/
theorem clientNewer_apply_witness :
    findNote [sampleNote] "u" newerChange.id = some sampleNote ∧
    sampleNote.updatedAt < newerChange.updatedAt ∧
    (processChange 100 "u" [sampleNote] newerChange =
        ⟨dbUpdateById [sampleNote] newerChange.id fun m =>
            { m with title := newerChange.title, content := newerChange.content,
                     deleted := newerChange.deleted,
                     version := max sampleNote.version newerChange.version + 1,
                     updatedAt := newerChange.updatedAt },
          some newerChange.id, none⟩ ∧
      findNote (processChange 100 "u" [sampleNote] newerChange).store "u"
          newerChange.id =
        some { sampleNote with
                 title := newerChange.title, content := newerChange.content,
                 deleted := newerChange.deleted,
                 version := max sampleNote.version newerChange.version + 1,
                 updatedAt := newerChange.updatedAt }) := by
  have h1 : findNote [sampleNote] "u" newerChange.id = some sampleNote := by decide
  have h2 : sampleNote.updatedAt < newerChange.updatedAt := by decide
  exact ⟨h1, h2, clientNewer_apply 100 "u" [sampleNote] newerChange sampleNote h1 h2⟩

/-- C6: for a change whose note exists for the owner with a strictly newer
server timestamp, the engine mutates nothing, does not mark the id applied,
and emits exactly one conflict record pairing the current server note with
the proposed client change. -/
theorem serverNewer_conflict (now : Int) (uid : String) (store : List Note)
    (c : Change) (n : Note) (hfind : findNote store uid c.id = some n)
    (hgt : c.updatedAt < n.updatedAt) :
    processChange now uid store c = ⟨store, none, some ⟨c.id, n, c⟩⟩ :=
  processChange_serverNewer now uid store c n hfind hgt

/-- Witness for C6: `olderChange` (timestamp 4) against `sampleNote`
(timestamp 10) leaves the store untouched and emits the conflict pair. -/
theorem serverNewer_conflict_witness :
    findNote [sampleNote] "u" olderChange.id = some sampleNote ∧
    olderChange.updatedAt < sampleNote.updatedAt ∧
    processChange 100 "u" [sampleNote] olderChange =
      ⟨[sampleNote], none, some ⟨olderChange.id, sampleNote, olderChange⟩⟩ := by
  have h1 : findNote [sampleNote] "u" olderChange.id = some sampleNote := by decide
  have h2 : olderChange.updatedAt < sampleNote.updatedAt := by decide
  exact ⟨h1, h2, serverNewer_conflict 100 "u" [sampleNote] olderChange sampleNote h1 h2⟩

/-- C7: on equal timestamps the engine compares versions: a higher client
version is applied with new version `clientVersion + 1` and `updatedAt` set
to the current server time; a higher server version emits a conflict with no
mutation; equal versions are acknowledged as applied with no mutation at
all. -/
theorem equalTimestamp_tiebreak (now : Int) (uid : String) (store : List Note)
    (c : Change) (n : Note) (hfind : findNote store uid c.id = some n)
    (heq : n.updatedAt = c.updatedAt) :
    (n.version < c.version →
      processChange now uid store c =
        ⟨dbUpdateById store c.id fun m =>
            { m with title := c.title, content := c.content, deleted := c.deleted,
                     version := c.version + 1, updatedAt := now },
          some c.id, none⟩ ∧
      findNote (processChange now uid store c).store uid c.id =
        some { n with title := c.title, content := c.content, deleted := c.deleted,
                      version := c.version + 1, updatedAt := now }) ∧
    (c.version < n.version →
      processChange now uid store c = ⟨store, none, some ⟨c.id, n, c⟩⟩) ∧
    (n.version = c.version →
      processChange now uid store c = ⟨store, some c.id, none⟩) := by
  refine ⟨?_, ?_, ?_⟩
  · intro hv
    have h1 := processChange_tie_apply now uid store c n hfind heq hv
    refine ⟨h1, ?_⟩
    rw [h1]
    dsimp only
    exact findNote_after_update_self store uid c.id n _ (fun _ => rfl) (fun _ => rfl) hfind
  · intro hv
    exact processChange_tie_conflict now uid store c n hfind heq hv
  · intro hv
    exact processChange_tie_noop now uid store c n hfind heq hv

/-- Witness for C7: against `sampleNote` (timestamp 10, version 3), the
three tie changes (versions 4, 2, 3 at timestamp 10) are respectively
applied at version 5, rejected as a conflict, and acknowledged without
mutation. -/
theorem equalTimestamp_tiebreak_witness :
    (processChange 100 "u" [sampleNote] tieHigherChange).applied =
        some tieHigherChange.id ∧
    processChange 100 "u" [sampleNote] tieLowerChange =
      ⟨[sampleNote], none, some ⟨tieLowerChange.id, sampleNote, tieLowerChange⟩⟩ ∧
    processChange 100 "u" [sampleNote] tieEqualChange =
      ⟨[sampleNote], some tieEqualChange.id, none⟩ := by
  have hf1 : findNote [sampleNote] "u" tieHigherChange.id = some sampleNote := by decide
  have hf2 : findNote [sampleNote] "u" tieLowerChange.id = some sampleNote := by decide
  have hf3 : findNote [sampleNote] "u" tieEqualChange.id = some sampleNote := by decide
  refine ⟨?_, ?_, ?_⟩
  · have h := (equalTimestamp_tiebreak 100 "u" [sampleNote] tieHigherChange sampleNote
      hf1 (by decide)).1 (by decide)
    rw [h.1]
  · exact (equalTimestamp_tiebreak 100 "u" [sampleNote] tieLowerChange sampleNote
      hf2 (by decide)).2.1 (by decide)
  · exact (equalTimestamp_tiebreak 100 "u" [sampleNote] tieEqualChange sampleNote
      hf3 (by decide)).2.2 (by decide)

/-! ### Order-independence of reconciliation (claim C1) -/

/-- A two-change batch is the two per-change steps composed. -/
theorem syncBatch_pair_store (now : Int) (uid : String) (store : List Note)
    (a b : Change) :
    (syncBatch now uid store [a, b]).store =
      (processChange now uid (processChange now uid store a).store b).store := rfl

/-- C1 counterexample: against a stored note at timestamp 10 / version 3,
feeding `writeA` (timestamp 11) then `writeB` (timestamp 12) leaves the note
at version 5, while the reverse order leaves it at version 4 — the final
stored notes are not identical in both runs. -/
theorem syncOrder_version_differs :
    (syncBatch 100 "u" [sampleNote] [writeA, writeB]).store ≠
      (syncBatch 100 "u" [sampleNote] [writeB, writeA]).store := by decide

/-- C1 amended: for two candidate writes with distinct `updatedAt`, both
strictly newer than any stored copy, either processing order converges on
the later write's `title`, `content`, `deleted` and `updatedAt`; the stored
`version` (and, for a note created by the run, `createdAt`) may differ
between the two orders. -/
theorem syncOrder_content_convergence (now : Int) (uid : String)
    (store : List Note) (A B : Change) (hid : A.id = B.id)
    (hts : A.updatedAt < B.updatedAt)
    (hold : ∀ n, findNote store uid A.id = some n → n.updatedAt < A.updatedAt) :
    (findNote (syncBatch now uid store [A, B]).store uid B.id).map contentOf =
      (findNote (syncBatch now uid store [B, A]).store uid B.id).map contentOf := by
  rw [syncBatch_pair_store, syncBatch_pair_store]
  cases hfind : findNote store uid A.id with
  | some n =>
      have hn : n.updatedAt < A.updatedAt := hold n hfind
      have hnB : n.updatedAt < B.updatedAt := lt_trans hn hts
      have hfindB : findNote store uid B.id = some n := by rw [← hid]; exact hfind
      -- order A then B: A applies, then B applies on top
      have hA1 := processChange_clientNewer now uid store A n hfind hn
      have hA2 : findNote (processChange now uid store A).store uid A.id =
          some { n with title := A.title, content := A.content, deleted := A.deleted,
                        version := max n.version A.version + 1,
                        updatedAt := A.updatedAt } := by
        rw [hA1]
        dsimp only
        exact findNote_after_update_self store uid A.id n _ (fun _ => rfl)
          (fun _ => rfl) hfind
      have hfind1 : findNote (processChange now uid store A).store uid B.id =
          some { n with title := A.title, content := A.content, deleted := A.deleted,
                        version := max n.version A.version + 1,
                        updatedAt := A.updatedAt } := by
        rw [← hid]; exact hA2
      have hB1 := processChange_clientNewer now uid
        (processChange now uid store A).store B
        { n with title := A.title, content := A.content, deleted := A.deleted,
                 version := max n.version A.version + 1, updatedAt := A.updatedAt }
        hfind1 hts
      have hB2 : findNote
          (processChange now uid (processChange now uid store A).store B).store uid
          B.id =
          some { n with title := B.title, content := B.content, deleted := B.deleted,
                        version := max (max n.version A.version + 1) B.version + 1,
                        updatedAt := B.updatedAt } := by
        rw [hB1]
        dsimp only
        exact findNote_after_update_self _ uid B.id
          { n with title := A.title, content := A.content, deleted := A.deleted,
                   version := max n.version A.version + 1, updatedAt := A.updatedAt }
          _ (fun _ => rfl) (fun _ => rfl) hfind1
      -- order B then A: B applies, then A conflicts
      have hB1' := processChange_clientNewer now uid store B n hfindB hnB
      have hB2' : findNote (processChange now uid store B).store uid B.id =
          some { n with title := B.title, content := B.content, deleted := B.deleted,
                        version := max n.version B.version + 1,
                        updatedAt := B.updatedAt } := by
        rw [hB1']
        dsimp only
        exact findNote_after_update_self store uid B.id n _ (fun _ => rfl)
          (fun _ => rfl) hfindB
      have hfind2 : findNote (processChange now uid store B).store uid A.id =
          some { n with title := B.title, content := B.content, deleted := B.deleted,
                        version := max n.version B.version + 1,
                        updatedAt := B.updatedAt } := by
        rw [hid]; exact hB2'
      have hA' := processChange_serverNewer now uid
        (processChange now uid store B).store A
        { n with title := B.title, content := B.content, deleted := B.deleted,
                 version := max n.version B.version + 1, updatedAt := B.updatedAt }
        hfind2 hts
      rw [hB2, hA']
      dsimp only
      rw [hB2']
      rfl
  | none =>
      have hfindB : findNote store uid B.id = none := by rw [← hid]; exact hfind
      cases hany : (store.any fun m => m.id == A.id) with
      | false =>
          have hanyB : (store.any fun m => m.id == B.id) = false := by
            rw [← hid]; exact hany
          -- order A then B: A is created, then B applies on top
          have hA := processChange_insert now uid store A hfind hany
          have hfind1 : findNote (store ++ [noteOfChange uid A]) uid B.id =
              some (noteOfChange uid A) := by
            rw [findNote_append_of_none store _ uid B.id hfindB]
            simp [noteOfChange, hid]
          have hB1 := processChange_clientNewer now uid (store ++ [noteOfChange uid A]) B
            (noteOfChange uid A) hfind1 hts
          have hB2 : findNote
              (processChange now uid (store ++ [noteOfChange uid A]) B).store uid
              B.id =
              some { noteOfChange uid A with
                       title := B.title, content := B.content, deleted := B.deleted,
                       version := max (noteOfChange uid A).version B.version + 1,
                       updatedAt := B.updatedAt } := by
            rw [hB1]
            dsimp only
            exact findNote_after_update_self _ uid B.id _ _ (fun _ => rfl)
              (fun _ => rfl) hfind1
          -- order B then A: B is created, then A conflicts
          have hB' := processChange_insert now uid store B hfindB hanyB
          have hfind2 : findNote (store ++ [noteOfChange uid B]) uid A.id =
              some (noteOfChange uid B) := by
            rw [findNote_append_of_none store _ uid A.id hfind]
            simp [noteOfChange, hid]
          have hA' := processChange_serverNewer now uid (store ++ [noteOfChange uid B]) A
            (noteOfChange uid B) hfind2 hts
          have hfind3 : findNote (store ++ [noteOfChange uid B]) uid B.id =
              some (noteOfChange uid B) := by
            rw [findNote_append_of_none store _ uid B.id hfindB]
            simp [noteOfChange]
          rw [hA]
          dsimp only
          rw [hB2, hB']
          dsimp only
          rw [hA']
          dsimp only
          rw [hfind3]
          rfl
      | true =>
          have hanyB : (store.any fun m => m.id == B.id) = true := by
            rw [← hid]; exact hany
          have hA := processChange_insert_fails now uid store A hfind hany
          have hB' := processChange_insert_fails now uid store B hfindB hanyB
          rw [hA]
          dsimp only
          rw [hB']
          dsimp only
          rw [hA]

/-- Witness for C1 amended: `writeA` (11) and `writeB` (12) against
`sampleNote` (10) converge on `writeB`'s content in both orders. -/
theorem syncOrder_content_convergence_witness :
    writeA.id = writeB.id ∧ writeA.updatedAt < writeB.updatedAt ∧
    (findNote (syncBatch 100 "u" [sampleNote] [writeA, writeB]).store "u"
        writeB.id).map contentOf =
      (findNote (syncBatch 100 "u" [sampleNote] [writeB, writeA]).store "u"
        writeB.id).map contentOf := by
  have h1 : writeA.id = writeB.id := by decide
  have h2 : writeA.updatedAt < writeB.updatedAt := by decide
  have h3 : ∀ n, findNote [sampleNote] "u" writeA.id = some n →
      n.updatedAt < writeA.updatedAt := by
    intro n h
    have h4 : some sampleNote = some n := by rw [← h]; rfl
    have h5 : sampleNote = n := Option.some.inj h4
    rw [← h5]
    decide
  exact ⟨h1, h2, syncOrder_content_convergence 100 "u" [sampleNote] writeA writeB h1 h2 h3⟩

/-! ### Queue acknowledgement (claim C2) -/

/-- C2 failing input evaluated: with pending items for `n1` and `n2` and a
server response applying only `n1`, the acknowledgement step clears the
whole queue — the item for `n2`, whose id is not in `applied`, is removed
too instead of being retained for retry. -/
theorem acknowledgeStep_clears_whole_queue :
    acknowledgeStep ["n1"] [queueItem1, queueItem2] = [] ∧
    queueItem2.noteId = "n2" ∧ ¬ ("n2" ∈ ["n1"]) := by decide

/-! ### Version monotonicity (claim C3) -/

/-- C3 counterexample: a client-newer apply against `sampleNote` (version 3)
with client version 5 stores version `max 3 5 + 1 = 6`, not the stored
version plus one. -/
theorem version_increment_not_exactly_one :
    ¬ ((findNote (processChange 100 "u" [sampleNote] newerChange).store "u"
        "n1").map Note.version = some (sampleNote.version + 1)) := by decide

/-! ### Unique primary keys -/

/-- Two rows of a store with unique primary keys and equal ids are the same
row. -/
theorem note_eq_of_nodup {store : List Note} (hnd : (store.map Note.id).Nodup)
    {m n : Note} (hm : m ∈ store) (hn : n ∈ store) (h : m.id = n.id) : m = n :=
  List.inj_on_of_nodup_map hnd hm hn h

/-- Under unique ids, the (id, owner) lookup finds any member row with that
id and that owner. -/
theorem findNote_eq_of_nodup (store : List Note) (uid nid : String) (n : Note)
    (hnd : (store.map Note.id).Nodup) (hmem : n ∈ store)
    (hid : n.id = nid) (huid : n.userId = uid) :
    findNote store uid nid = some n := by
  cases hfid : findNote store uid nid with
  | none =>
      have := List.find?_eq_none.mp hfid n hmem
      simp [hid, huid] at this
  | some m =>
      have hmmem := List.mem_of_find?_eq_some hfid
      have hmp := List.find?_some hfid
      have hmid : m.id = nid := by
        simp only [Bool.and_eq_true, beq_iff_eq] at hmp
        exact hmp.1
      rw [note_eq_of_nodup hnd hmmem hmem (hmid.trans hid.symm)]

/-- Under unique ids, a select by id alone returns the same row the
(id, owner) lookup found. -/
theorem find?_id_eq_of_nodup (store : List Note) (uid nid : String) (n : Note)
    (hnd : (store.map Note.id).Nodup)
    (hfind : findNote store uid nid = some n) :
    store.find? (fun m => m.id == nid) = some n := by
  have hmem := List.mem_of_find?_eq_some hfind
  have hp := List.find?_some hfind
  have hnid : n.id = nid := by
    simp only [Bool.and_eq_true, beq_iff_eq] at hp
    exact hp.1
  cases hfid : store.find? (fun m => m.id == nid) with
  | none =>
      have := List.find?_eq_none.mp hfid n hmem
      simp [hnid] at this
  | some m =>
      have hmmem := List.mem_of_find?_eq_some hfid
      have hmp := List.find?_some hfid
      have hmid : m.id = nid := by simpa [beq_iff_eq] using hmp
      rw [note_eq_of_nodup hnd hmmem hmem (hmid.trans hnid.symm)]

/-- A select by id alone through an id-scoped update. -/
theorem find?_id_dbUpdateById (store : List Note) (nid : String) (f : Note → Note)
    (hid : ∀ n, (f n).id = n.id) :
    (dbUpdateById store nid f).find? (fun m => m.id == nid) =
      (store.find? fun m => m.id == nid).map
        fun n => if n.id == nid then f n else n := by
  unfold dbUpdateById
  refine find?_map_pres _ _ ?_ store
  intro a
  by_cases h : a.id = nid
  · have hb : (a.id == nid) = true := by simpa [beq_iff_eq] using h
    simp [hb, hid]
  · have hb : (a.id == nid) = false := by simpa [beq_iff_eq] using h
    simp [hb]

/-! ### Conflict resolution (claim C4) -/

/-- Reduction of `POST /sync/resolve` with resolution `server`. -/
theorem resolveConflict_server_eq (now : Int) (uid : String) (store : List Note)
    (nid : String) (md : Option (String × String)) (n : Note)
    (hnd : (store.map Note.id).Nodup)
    (hfind : findNote store uid nid = some n) :
    resolveConflict now uid store nid Resolution.server md =
      some (dbUpdateById store nid fun m =>
              { m with version := n.version + 1, updatedAt := now },
            { n with version := n.version + 1, updatedAt := now }) := by
  have hnid : n.id = nid := by
    have hp := List.find?_some hfind
    simp only [Bool.and_eq_true, beq_iff_eq] at hp
    exact hp.1
  have hsel : (dbUpdateById store nid fun m =>
        { m with version := n.version + 1, updatedAt := now }).find?
        (fun m => m.id == nid) =
      some { n with version := n.version + 1, updatedAt := now } := by
    rw [find?_id_dbUpdateById store nid
        (fun m => { m with version := n.version + 1, updatedAt := now })
        (fun _ => rfl),
      find?_id_eq_of_nodup store uid nid n hnd hfind]
    simp [hnid]
  unfold resolveConflict
  rw [hfind]
  dsimp only
  rw [hsel]

/-- Reduction of `POST /sync/resolve` with resolution `manual` and manual
data supplied. -/
theorem resolveConflict_manual_eq (now : Int) (uid : String) (store : List Note)
    (nid : String) (t c : String) (n : Note)
    (hnd : (store.map Note.id).Nodup)
    (hfind : findNote store uid nid = some n) :
    resolveConflict now uid store nid Resolution.manual (some (t, c)) =
      some (dbUpdateById store nid fun m =>
              { m with title := t, content := c, version := n.version + 1,
                       updatedAt := now },
            { n with title := t, content := c, version := n.version + 1,
                     updatedAt := now }) := by
  have hnid : n.id = nid := by
    have hp := List.find?_some hfind
    simp only [Bool.and_eq_true, beq_iff_eq] at hp
    exact hp.1
  have hsel : (dbUpdateById store nid fun m =>
        { m with title := t, content := c, version := n.version + 1,
                 updatedAt := now }).find? (fun m => m.id == nid) =
      some { n with title := t, content := c, version := n.version + 1,
                    updatedAt := now } := by
    rw [find?_id_dbUpdateById store nid
        (fun m => { m with title := t, content := c, version := n.version + 1, updatedAt := now })
        (fun _ => rfl),
      find?_id_eq_of_nodup store uid nid n hnd hfind]
    simp [hnid]
  unfold resolveConflict
  rw [hfind]
  dsimp only
  rw [hsel]

/-- Reduction of `POST /sync/resolve` with resolution `client`: the handler
has no branch for it, so nothing is mutated and the stored note is returned
as found. -/
theorem resolveConflict_client_eq (now : Int) (uid : String) (store : List Note)
    (nid : String) (md : Option (String × String)) (n : Note)
    (hnd : (store.map Note.id).Nodup)
    (hfind : findNote store uid nid = some n) :
    resolveConflict now uid store nid Resolution.client md = some (store, n) := by
  unfold resolveConflict
  rw [hfind]
  dsimp only
  rw [find?_id_eq_of_nodup store uid nid n hnd hfind]

/-- Reduction of `POST /sync/resolve` with resolution `manual` but no manual
data: no mutation. -/
theorem resolveConflict_manual_none_eq (now : Int) (uid : String)
    (store : List Note) (nid : String) (n : Note)
    (hnd : (store.map Note.id).Nodup)
    (hfind : findNote store uid nid = some n) :
    resolveConflict now uid store nid Resolution.manual none = some (store, n) := by
  unfold resolveConflict
  rw [hfind]
  dsimp only
  rw [find?_id_eq_of_nodup store uid nid n hnd hfind]

/-- C4 counterexample: resolving with `client` on an existing note performs
no mutation — the returned note keeps the stored version instead of the
stored version plus one. -/
theorem resolve_client_no_bump :
    ¬ (((resolveConflict 100 "u" [sampleNote] "n1" Resolution.client none).map
        fun r => r.2.version) = some (sampleNote.version + 1)) := by decide

/-- C4 amended: on an existing note (under unique primary keys), resolving
with `server` returns the note at the stored version plus one with a fresh
`updatedAt`; resolving with `manual` and manual data additionally applies the
supplied title and content; resolving with `client` — or `manual` without
manual data — performs no mutation at all and returns the stored note
unchanged (the client's fields reach the store only through a later
subsequent sync, not through this endpoint). -/
theorem resolve_version_semantics (now : Int) (uid : String) (store : List Note)
    (nid : String) (t c : String) (md : Option (String × String)) (n : Note)
    (hnd : (store.map Note.id).Nodup)
    (hfind : findNote store uid nid = some n) :
    resolveConflict now uid store nid Resolution.server md =
      some (dbUpdateById store nid fun m =>
              { m with version := n.version + 1, updatedAt := now },
            { n with version := n.version + 1, updatedAt := now }) ∧
    resolveConflict now uid store nid Resolution.manual (some (t, c)) =
      some (dbUpdateById store nid fun m =>
              { m with title := t, content := c, version := n.version + 1,
                       updatedAt := now },
            { n with title := t, content := c, version := n.version + 1,
                     updatedAt := now }) ∧
    resolveConflict now uid store nid Resolution.client md = some (store, n) ∧
    resolveConflict now uid store nid Resolution.manual none = some (store, n) :=
  ⟨resolveConflict_server_eq now uid store nid md n hnd hfind,
   resolveConflict_manual_eq now uid store nid t c n hnd hfind,
   resolveConflict_client_eq now uid store nid md n hnd hfind,
   resolveConflict_manual_none_eq now uid store nid n hnd hfind⟩

/-- Witness for C4 amended: on `sampleNote` (version 3), `server` resolution
returns version 4 while `client` resolution returns the note unchanged. -/
theorem resolve_version_semantics_witness :
    ([sampleNote].map Note.id).Nodup ∧
    findNote [sampleNote] "u" "n1" = some sampleNote ∧
    ((resolveConflict 100 "u" [sampleNote] "n1" Resolution.server none).map
        fun r => r.2.version) = some (sampleNote.version + 1) ∧
    resolveConflict 100 "u" [sampleNote] "n1" Resolution.client none =
      some ([sampleNote], sampleNote) := by
  have h1 : ([sampleNote].map Note.id).Nodup := by decide
  have h2 : findNote [sampleNote] "u" "n1" = some sampleNote := by decide
  have h := resolve_version_semantics 100 "u" [sampleNote] "n1" "mt" "mc" none
    sampleNote h1 h2
  refine ⟨h1, h2, ?_, h.2.2.1⟩
  rw [h.1]
  rfl

/-- C3 amended: through the reconciliation engine a stored note's version
never decreases, and an applied mutation sets it to
`max serverVersion clientVersion + 1` (client newer) or `clientVersion + 1`
(equal-timestamp tiebreak) — both at least the stored version, but possibly
more than one above it; the CRUD update and delete handlers and the `server`
and `manual` conflict resolutions each increase the stored version by
exactly one. -/
theorem version_monotone_amended :
    (∀ (now : Int) (uid : String) (store : List Note) (c : Change) (n n' : Note),
      findNote store uid c.id = some n →
      findNote (processChange now uid store c).store uid c.id = some n' →
      n.version ≤ n'.version ∧
      (n.updatedAt < c.updatedAt → n'.version = max n.version c.version + 1) ∧
      (n.updatedAt = c.updatedAt → n.version < c.version →
        n'.version = c.version + 1)) ∧
    (∀ (now : Int) (uid : String) (store : List Note) (nid : String)
        (tt cc : Option String) (ex : Note),
      store.find? (fun m => m.id == nid && m.userId == uid && !m.deleted) =
        some ex →
      ((putNote now uid store nid tt cc).map fun pr => pr.2.version) =
        some (ex.version + 1)) ∧
    (∀ (now : Int) (uid : String) (store : List Note) (nid : String) (ex : Note),
      (store.map Note.id).Nodup →
      store.find? (fun m => m.id == nid && m.userId == uid && !m.deleted) =
        some ex →
      (deleteNote now uid store nid).map (fun s => findNote s uid nid) =
        some (some { ex with deleted := true, version := ex.version + 1,
                             updatedAt := now })) ∧
    (∀ (now : Int) (uid : String) (store : List Note) (nid : String)
        (md : Option (String × String)) (n : Note),
      (store.map Note.id).Nodup → findNote store uid nid = some n →
      ((resolveConflict now uid store nid Resolution.server md).map
          fun pr => pr.2.version) = some (n.version + 1)) ∧
    (∀ (now : Int) (uid : String) (store : List Note) (nid : String)
        (t c : String) (n : Note),
      (store.map Note.id).Nodup → findNote store uid nid = some n →
      ((resolveConflict now uid store nid Resolution.manual (some (t, c))).map
          fun pr => pr.2.version) = some (n.version + 1)) := by
  refine ⟨?_, ?_, ?_, ?_, ?_⟩
  · intro now uid store c n n' hfind hfind'
    rcases lt_trichotomy n.updatedAt c.updatedAt with hlt | heq | hgt
    · have h1 := processChange_clientNewer now uid store c n hfind hlt
      have h2 : findNote (processChange now uid store c).store uid c.id =
          some { n with title := c.title, content := c.content, deleted := c.deleted,
                        version := max n.version c.version + 1,
                        updatedAt := c.updatedAt } := by
        rw [h1]
        dsimp only
        exact findNote_after_update_self store uid c.id n _ (fun _ => rfl)
          (fun _ => rfl) hfind
      rw [hfind'] at h2
      have hn' := Option.some.inj h2
      refine ⟨?_, fun _ => ?_, fun habs _ => absurd habs (ne_of_lt hlt)⟩
      · rw [hn']
        dsimp only
        have := le_max_left n.version c.version
        linarith
      · rw [hn']
    · rcases lt_trichotomy n.version c.version with hv | hveq | hv
      · have h1 := processChange_tie_apply now uid store c n hfind heq hv
        have h2 : findNote (processChange now uid store c).store uid c.id =
            some { n with title := c.title, content := c.content,
                          deleted := c.deleted, version := c.version + 1,
                          updatedAt := now } := by
          rw [h1]
          dsimp only
          exact findNote_after_update_self store uid c.id n _ (fun _ => rfl)
            (fun _ => rfl) hfind
        rw [hfind'] at h2
        have hn' := Option.some.inj h2
        refine ⟨?_, fun habs => absurd habs (by rw [heq]; exact lt_irrefl _),
          fun _ _ => ?_⟩
        · rw [hn']
          dsimp only
          linarith
        · rw [hn']
      · have h1 := processChange_tie_noop now uid store c n hfind heq hveq
        rw [h1] at hfind'
        dsimp only at hfind'
        rw [hfind] at hfind'
        have hn' := Option.some.inj hfind'
        refine ⟨le_of_eq (by rw [hn']),
          fun habs => absurd habs (by rw [heq]; exact lt_irrefl _),
          fun _ hvlt => absurd hvlt (by rw [hveq]; exact lt_irrefl _)⟩
      · have h1 := processChange_tie_conflict now uid store c n hfind heq hv
        rw [h1] at hfind'
        dsimp only at hfind'
        rw [hfind] at hfind'
        have hn' := Option.some.inj hfind'
        refine ⟨le_of_eq (by rw [hn']),
          fun habs => absurd habs (by rw [heq]; exact lt_irrefl _),
          fun _ hvlt => absurd hvlt (lt_asymm hv)⟩
    · have h1 := processChange_serverNewer now uid store c n hfind hgt
      rw [h1] at hfind'
      dsimp only at hfind'
      rw [hfind] at hfind'
      have hn' := Option.some.inj hfind'
      refine ⟨le_of_eq (by rw [hn']),
        fun habs => absurd habs (lt_asymm hgt),
        fun habs _ => absurd habs.symm (ne_of_lt hgt)⟩
  · intro now uid store nid tt cc ex hex
    unfold putNote
    rw [hex]
    rfl
  · intro now uid store nid ex hnd hex
    have hmem := List.mem_of_find?_eq_some hex
    have hp := List.find?_some hex
    simp only [Bool.and_eq_true, beq_iff_eq] at hp
    have hfind : findNote store uid nid = some ex :=
      findNote_eq_of_nodup store uid nid ex hnd hmem hp.1.1 hp.1.2
    unfold deleteNote
    rw [hex]
    dsimp only
    exact congrArg some (findNote_after_update_self store uid nid ex _
      (fun _ => rfl) (fun _ => rfl) hfind)
  · intro now uid store nid md n hnd hfind
    rw [resolveConflict_server_eq now uid store nid md n hnd hfind]
    rfl
  · intro now uid store nid t c n hnd hfind
    rw [resolveConflict_manual_eq now uid store nid t c n hnd hfind]
    rfl

/-- Witness for C3 amended: the client-newer apply of `newerChange` (version
5) onto `sampleNote` (version 3) yields version 6 — an increase of 3,
matching `max 3 5 + 1`, and no decrease. -/
theorem version_monotone_amended_witness :
    findNote [sampleNote] "u" newerChange.id = some sampleNote ∧
    findNote (processChange 100 "u" [sampleNote] newerChange).store "u"
        newerChange.id = some noteAfterNewer ∧
    sampleNote.version ≤ noteAfterNewer.version ∧
    noteAfterNewer.version = max sampleNote.version newerChange.version + 1 := by
  have h1 : findNote [sampleNote] "u" newerChange.id = some sampleNote := by decide
  have h2 : findNote (processChange 100 "u" [sampleNote] newerChange).store "u"
      newerChange.id = some noteAfterNewer := by decide
  have h := version_monotone_amended.1 100 "u" [sampleNote] newerChange
    sampleNote noteAfterNewer h1 h2
  exact ⟨h1, h2, h.1, h.2.1 (by decide)⟩

/-! ### The serverChanges query (claim C8) -/

/-- C8: the response's `serverChanges` is empty when the request carries no
`lastSyncAt`; with `lastSyncAt = t` it consists of exactly the caller's
post-batch notes with `updatedAt` strictly greater than `t` (a permutation
of that filter), ordered by `updatedAt` ascending. -/
theorem serverChanges_spec (now : Int) (uid : String) (store : List Note)
    (t : Int) (changes : List Change) :
    (postSync now uid store none changes).1.serverChanges = [] ∧
    ((postSync now uid store (some t) changes).1.serverChanges).Perm
        ((syncBatch now uid store changes).store.filter
          fun n => n.userId == uid && t < n.updatedAt) ∧
    ((postSync now uid store (some t) changes).1.serverChanges).Pairwise noteLE := by
  refine ⟨rfl, List.perm_insertionSort noteLE _, ?_⟩
  exact List.sorted_insertionSort noteLE _

/-! ### Per-change failure isolation (claim C9) -/

/-- One-step unfolding of the batch loop. -/
theorem syncBatch_cons (now : Int) (uid : String) (store : List Note)
    (c : Change) (cs : List Change) :
    syncBatch now uid store (c :: cs) =
      ⟨(syncBatch now uid (processChange now uid store c).store cs).store,
       (processChange now uid store c).applied.toList ++
         (syncBatch now uid (processChange now uid store c).store cs).applied,
       (processChange now uid store c).conflict.toList ++
         (syncBatch now uid (processChange now uid store c).store cs).conflicts⟩ := rfl

/-- One-step unfolding of the fault-injected loop on a healthy change. -/
theorem syncBatchFaulty_cons_ok (now : Int) (uid : String) (store : List Note)
    (c : Change) (cbs : List (Change × Bool)) :
    syncBatchFaulty now uid store ((c, false) :: cbs) =
      ⟨(syncBatchFaulty now uid (processChange now uid store c).store cbs).store,
       (processChange now uid store c).applied.toList ++
         (syncBatchFaulty now uid (processChange now uid store c).store cbs).applied,
       (processChange now uid store c).conflict.toList ++
         (syncBatchFaulty now uid (processChange now uid store c).store cbs).conflicts⟩ :=
  rfl

/-- One-step unfolding of the fault-injected loop on a failing change: the
swallowed error leaves everything as if the change were never sent. -/
theorem syncBatchFaulty_cons_fail (now : Int) (uid : String) (store : List Note)
    (c : Change) (cbs : List (Change × Bool)) :
    syncBatchFaulty now uid store ((c, true) :: cbs) =
      syncBatchFaulty now uid store cbs := rfl

/-- With no injected fault the two loops agree. -/
theorem syncBatchFaulty_all_ok (now : Int) (uid : String) :
    ∀ (l : List Change) (store : List Note),
      syncBatchFaulty now uid store (l.map fun a => (a, false)) =
        syncBatch now uid store l := by
  intro l
  induction l with
  | nil => intro store; rfl
  | cons c cs ih =>
      intro store
      rw [List.map_cons, syncBatchFaulty_cons_ok, syncBatch_cons, ih]

/-- A single failing change in the middle of a batch: the outcome is that of
the batch with the change removed. -/
theorem syncBatchFaulty_single (now : Int) (uid : String) :
    ∀ (pre : List Change) (store : List Note) (post : List Change) (c : Change),
      syncBatchFaulty now uid store
          (pre.map (fun a => (a, false)) ++
            (c, true) :: post.map fun a => (a, false)) =
        syncBatch now uid store (pre ++ post) := by
  intro pre
  induction pre with
  | nil =>
      intro store post c
      simp only [List.map_nil, List.nil_append]
      rw [syncBatchFaulty_cons_fail, syncBatchFaulty_all_ok]
  | cons a pre' ih =>
      intro store post c
      simp only [List.map_cons, List.cons_append]
      rw [syncBatchFaulty_cons_ok, syncBatch_cons, ih]

/-- The id a change contributes to `applied` is its own. -/
theorem processChange_out_ids (now : Int) (uid : String) (store : List Note)
    (c : Change) :
    (∀ x, (processChange now uid store c).applied = some x → x = c.id) ∧
    (∀ k, (processChange now uid store c).conflict = some k → k.id = c.id) := by
  cases hf : findNote store uid c.id with
  | none =>
      cases hi : dbInsert store (noteOfChange uid c) with
      | none =>
          unfold processChange
          rw [hf, hi]
          exact ⟨fun x hx => absurd hx (by simp), fun k hk => absurd hk (by simp)⟩
      | some s =>
          unfold processChange
          rw [hf, hi]
          exact ⟨fun x hx => (Option.some.inj hx).symm,
            fun k hk => absurd hk (by simp)⟩
  | some sn =>
      rw [processChange_found now uid store c sn hf]
      unfold processExisting
      by_cases h1 : sn.updatedAt < c.updatedAt
      · rw [if_pos h1]
        exact ⟨fun x hx => (Option.some.inj hx).symm,
          fun k hk => absurd hk (by simp)⟩
      · rw [if_neg h1]
        by_cases h2 : c.updatedAt < sn.updatedAt
        · rw [if_pos h2]
          refine ⟨fun x hx => absurd hx (by simp), fun k hk => ?_⟩
          rw [← Option.some.inj hk]
        · rw [if_neg h2]
          by_cases h3 : sn.version < c.version
          · rw [if_pos h3]
            exact ⟨fun x hx => (Option.some.inj hx).symm,
              fun k hk => absurd hk (by simp)⟩
          · rw [if_neg h3]
            by_cases h4 : c.version < sn.version
            · rw [if_pos h4]
              refine ⟨fun x hx => absurd hx (by simp), fun k hk => ?_⟩
              rw [← Option.some.inj hk]
            · rw [if_neg h4]
              exact ⟨fun x hx => (Option.some.inj hx).symm,
                fun k hk => absurd hk (by simp)⟩

/-- Every id in `applied` is the id of some change in the batch. -/
theorem syncBatch_applied_ids (now : Int) (uid : String) :
    ∀ (l : List Change) (store : List Note) (x : String),
      x ∈ (syncBatch now uid store l).applied → x ∈ l.map Change.id := by
  intro l
  induction l with
  | nil => intro store x hx; simp [syncBatch] at hx
  | cons c cs ih =>
      intro store x hx
      rw [syncBatch_cons] at hx
      dsimp only at hx
      rw [List.mem_append] at hx
      rw [List.map_cons]
      rcases hx with hx | hx
      · have hsome : (processChange now uid store c).applied = some x := by
          cases ha : (processChange now uid store c).applied with
          | none => rw [ha] at hx; simp at hx
          | some y =>
              rw [ha] at hx
              simp only [Option.toList_some, List.mem_singleton] at hx
              rw [hx]
        have hxid := (processChange_out_ids now uid store c).1 x hsome
        exact hxid ▸ List.mem_cons_self _ _
      · exact List.mem_cons_of_mem _ (ih _ x hx)

/-- Every conflict id is the id of some change in the batch. -/
theorem syncBatch_conflict_ids (now : Int) (uid : String) :
    ∀ (l : List Change) (store : List Note) (k : ConflictData),
      k ∈ (syncBatch now uid store l).conflicts → k.id ∈ l.map Change.id := by
  intro l
  induction l with
  | nil => intro store k hk; simp [syncBatch] at hk
  | cons c cs ih =>
      intro store k hk
      rw [syncBatch_cons] at hk
      dsimp only at hk
      rw [List.mem_append] at hk
      rw [List.map_cons]
      rcases hk with hk | hk
      · have hsome : (processChange now uid store c).conflict = some k := by
          cases ha : (processChange now uid store c).conflict with
          | none => rw [ha] at hk; simp at hk
          | some y =>
              rw [ha] at hk
              simp only [Option.toList_some, List.mem_singleton] at hk
              rw [hk]
        have hkid := (processChange_out_ids now uid store c).2 k hsome
        exact hkid ▸ List.mem_cons_self _ _
      · exact List.mem_cons_of_mem _ (ih _ k hk)

/-- C9: a change whose processing raises a storage error contributes nothing
— the batch outcome equals that of the batch without it, every other change
is still processed, and (when no other change shares its id) its id appears
in neither `applied` nor `conflicts`, so the response is returned normally.
-/
theorem perChange_failure_isolation (now : Int) (uid : String)
    (store : List Note) (pre post : List Change) (c : Change) :
    syncBatchFaulty now uid store
        (pre.map (fun a => (a, false)) ++
          (c, true) :: post.map fun a => (a, false)) =
      syncBatch now uid store (pre ++ post) ∧
    (c.id ∉ (pre ++ post).map Change.id →
      c.id ∉ (syncBatch now uid store (pre ++ post)).applied ∧
      ∀ k ∈ (syncBatch now uid store (pre ++ post)).conflicts, k.id ≠ c.id) := by
  refine ⟨syncBatchFaulty_single now uid pre store post c, ?_⟩
  intro hnotin
  constructor
  · intro hmem
    exact hnotin (syncBatch_applied_ids now uid (pre ++ post) store c.id hmem)
  · intro k hk hkid
    exact hnotin (hkid ▸ syncBatch_conflict_ids now uid (pre ++ post) store k hk)

/-- Witness for C9: a batch of `writeA` followed by a failing `failingChange`
behaves exactly like the batch `[writeA]` alone, and the failing change's id
shows up nowhere in the response. -/
theorem perChange_failure_isolation_witness :
    syncBatchFaulty 100 "u" [sampleNote]
        ([writeA].map (fun a => (a, false)) ++
          (failingChange, true) :: ([] : List Change).map fun a => (a, false)) =
      syncBatch 100 "u" [sampleNote] ([writeA] ++ []) ∧
    failingChange.id ∉ ([writeA] ++ ([] : List Change)).map Change.id ∧
    failingChange.id ∉ (syncBatch 100 "u" [sampleNote] ([writeA] ++ [])).applied ∧
    (syncBatch 100 "u" [sampleNote] ([writeA] ++ [])).conflicts = [] := by
  have h := perChange_failure_isolation 100 "u" [sampleNote] [writeA] [] failingChange
  have hn : failingChange.id ∉ ([writeA] ++ ([] : List Change)).map Change.id := by
    decide
  exact ⟨h.1, hn, (h.2 hn).1, by decide⟩

/-! ### Cross-owner isolation (claim C10) -/

/-- Filtering commutes with a map that fixes the kept elements and preserves
the predicate. -/
theorem filter_map_eq_of {α : Type} (l : List α) (g : α → α) (p : α → Bool)
    (h : ∀ a ∈ l, p (g a) = p a ∧ (p a = true → g a = a)) :
    (l.map g).filter p = l.filter p := by
  induction l with
  | nil => rfl
  | cons a t ih =>
      have ha := h a (List.mem_cons_self a t)
      have ht : ∀ b ∈ t, p (g b) = p b ∧ (p b = true → g b = b) :=
        fun b hb => h b (List.mem_cons_of_mem a hb)
      simp only [List.map_cons, List.filter_cons, ha.1]
      by_cases hp : p a = true
      · rw [if_pos hp, if_pos hp, ha.2 hp, ih ht]
      · rw [if_neg hp, if_neg hp, ih ht]

/-- An id-scoped update preserves the multiset of primary keys. -/
theorem map_id_dbUpdateById (store : List Note) (nid : String) (f : Note → Note)
    (hid : ∀ n, (f n).id = n.id) :
    (dbUpdateById store nid f).map Note.id = store.map Note.id := by
  unfold dbUpdateById
  rw [List.map_map]
  refine List.map_congr_left ?_
  intro a _
  by_cases h : a.id = nid
  · have hb : (a.id == nid) = true := by simpa [beq_iff_eq] using h
    simp [Function.comp, hb, hid]
  · have hb : (a.id == nid) = false := by simpa [beq_iff_eq] using h
    simp [Function.comp, hb]

/-- Under unique primary keys, an id-scoped update whose target row belongs
to `uid` leaves every other owner's rows exactly as they were. -/
theorem dbUpdateById_frame (store : List Note) (uid nid : String) (sn : Note)
    (f : Note → Note) (hfuid : ∀ n, (f n).userId = n.userId)
    (hnd : (store.map Note.id).Nodup)
    (hmem : sn ∈ store) (hsid : sn.id = nid) (hsuid : sn.userId = uid) :
    (dbUpdateById store nid f).filter (fun n => !(n.userId == uid)) =
      store.filter (fun n => !(n.userId == uid)) := by
  unfold dbUpdateById
  apply filter_map_eq_of
  intro a ha
  constructor
  · by_cases h : a.id = nid
    · have hb : (a.id == nid) = true := by simpa [beq_iff_eq] using h
      simp [hb, hfuid]
    · have hb : (a.id == nid) = false := by simpa [beq_iff_eq] using h
      simp [hb]
  · intro hpa
    by_cases h : a.id = nid
    · exfalso
      have haeq : a = sn := note_eq_of_nodup hnd ha hmem (h.trans hsid.symm)
      rw [haeq, hsuid] at hpa
      simp at hpa
    · have hb : (a.id == nid) = false := by simpa [beq_iff_eq] using h
      simp [hb]

/-- One reconciliation step neither touches another owner's rows nor breaks
primary-key uniqueness. -/
theorem processChange_frame (now : Int) (uid : String) (store : List Note)
    (c : Change) (hnd : (store.map Note.id).Nodup) :
    (processChange now uid store c).store.filter (fun n => !(n.userId == uid)) =
      store.filter (fun n => !(n.userId == uid)) ∧
    ((processChange now uid store c).store.map Note.id).Nodup := by
  cases hf : findNote store uid c.id with
  | none =>
      cases hany : (store.any fun m => m.id == c.id) with
      | false =>
          rw [processChange_insert now uid store c hf hany]
          dsimp only
          constructor
          · rw [List.filter_append]
            have hux : (!((noteOfChange uid c).userId == uid)) = false := by
              simp [noteOfChange]
            simp [List.filter_cons, hux]
          · rw [List.map_append, List.nodup_append]
            refine ⟨hnd, by simp, ?_⟩
            intro x hx hx2
            simp only [noteOfChange, List.map_cons, List.map_nil,
              List.mem_singleton] at hx2
            subst hx2
            rcases List.mem_map.mp hx with ⟨m, hm, hmid⟩
            have hfalse := List.any_eq_false.mp hany m hm
            simp [hmid] at hfalse
      | true =>
          rw [processChange_insert_fails now uid store c hf hany]
          exact ⟨rfl, hnd⟩
  | some sn =>
      have hmem := List.mem_of_find?_eq_some hf
      have hp := List.find?_some hf
      simp only [Bool.and_eq_true, beq_iff_eq] at hp
      rw [processChange_found now uid store c sn hf]
      unfold processExisting
      by_cases h1 : sn.updatedAt < c.updatedAt
      · rw [if_pos h1]
        dsimp only
        refine ⟨dbUpdateById_frame store uid c.id sn
            (fun m => { m with title := c.title, content := c.content,
                               deleted := c.deleted,
                               version := max sn.version c.version + 1,
                               updatedAt := c.updatedAt })
            (fun _ => rfl) hnd hmem hp.1 hp.2, ?_⟩
        rw [map_id_dbUpdateById store c.id
            (fun m => { m with title := c.title, content := c.content,
                               deleted := c.deleted,
                               version := max sn.version c.version + 1,
                               updatedAt := c.updatedAt })
            (fun _ => rfl)]
        exact hnd
      · rw [if_neg h1]
        by_cases h2 : c.updatedAt < sn.updatedAt
        · rw [if_pos h2]
          exact ⟨rfl, hnd⟩
        · rw [if_neg h2]
          by_cases h3 : sn.version < c.version
          · rw [if_pos h3]
            dsimp only
            refine ⟨dbUpdateById_frame store uid c.id sn
                (fun m => { m with title := c.title, content := c.content,
                                   deleted := c.deleted,
                                   version := c.version + 1, updatedAt := now })
                (fun _ => rfl) hnd hmem hp.1 hp.2, ?_⟩
            rw [map_id_dbUpdateById store c.id
                (fun m => { m with title := c.title, content := c.content,
                                   deleted := c.deleted,
                                   version := c.version + 1, updatedAt := now })
                (fun _ => rfl)]
            exact hnd
          · rw [if_neg h3]
            by_cases h4 : c.version < sn.version
            · rw [if_pos h4]
              exact ⟨rfl, hnd⟩
            · rw [if_neg h4]
              exact ⟨rfl, hnd⟩

/-- C10: a sync request authenticated as `uid`, against a store with unique
primary keys, leaves every note of every other owner exactly as it was —
the owner-scoped lookup, the id-unique insert (whose cross-owner collision
fails and is swallowed), and the id-scoped updates cannot touch them. -/
theorem crossOwner_isolation (now : Int) (uid : String) (changes : List Change) :
    ∀ (store : List Note), (store.map Note.id).Nodup →
      (syncBatch now uid store changes).store.filter
          (fun n => !(n.userId == uid)) =
        store.filter (fun n => !(n.userId == uid)) := by
  induction changes with
  | nil => intro store _; rfl
  | cons c cs ih =>
      intro store hnd
      have hstep := processChange_frame now uid store c hnd
      show (syncBatch now uid (processChange now uid store c).store cs).store.filter
          (fun n => !(n.userId == uid)) =
        store.filter (fun n => !(n.userId == uid))
      rw [ih (processChange now uid store c).store hstep.2, hstep.1]

/-- Witness for C10: syncing `newerChange` (which updates `u`'s own note)
and `collidingChange` (whose id collides with `v`'s note `n9`) leaves `v`'s
notes untouched. -/
theorem crossOwner_isolation_witness :
    ([sampleNote, otherUserNote].map Note.id).Nodup ∧
    (syncBatch 100 "u" [sampleNote, otherUserNote]
        [newerChange, collidingChange]).store.filter
        (fun n => !(n.userId == "u")) =
      [sampleNote, otherUserNote].filter (fun n => !(n.userId == "u")) := by
  have h : ([sampleNote, otherUserNote].map Note.id).Nodup := by decide
  exact ⟨h, crossOwner_isolation 100 "u" [newerChange, collidingChange]
    [sampleNote, otherUserNote] h⟩

end NotesApp
